import Mathlib

/-!
Shallow embedding of the copy-trading reconciliation engine of
`src/lib/copy-trade.ts`, together with the cursor store of `src/lib/kv.ts`
(and its second revision) and the cron handler's persistence merge.

JavaScript numbers are modelled as rationals (`ℚ`); nullable values as
`Option`; the `Set` of copied keys as an insertion-ordered duplicate-free
list built with `insertKey`.  The Order Executor is an oracle
`ℕ → OrderParams → ExecResult` (indexed by how many submissions the pass
has already made).  Each pass additionally returns an observation trace
with one `EventOutcome` per fetched activity entry, recording whether the
entry was skipped (and why) or submitted (and with what parameters and
executor result); the trace is the formal record of the engine's external
side effects and introduces no behaviour of its own.
-/

set_option allowUnsafeReducibility true in
attribute [semireducible] Rat.mul Rat.add Rat.sub Rat.inv Rat.div Rat.neg

/-- Order direction, mirroring `Side.BUY` / `Side.SELL` of the CLOB client. -/
inductive Side where
  | BUY
  | SELL
deriving DecidableEq, Repr

/-- Order time-in-force, mirroring `OrderType` of the CLOB client; the engine
only ever uses `FOK` (fill-or-kill). -/
inductive OrderType where
  | FOK
  | GTC
deriving DecidableEq, Repr

/-- Outcome of one `createAndPostMarketOrder` call: a response with
`success: true`, a response without it (carrying an optional `errorMsg`),
or a thrown fault with its message. -/
inductive ExecResult where
  | success
  | failure (errorMsg : Option String)
  | thrown (msg : String)
deriving DecidableEq, Repr

/-- Parameters of one market order as built at `copy-trade.ts:160-166`:
the `price` field is present exactly when the spread `...(side === Side.SELL
&& { price })` adds it. -/
structure OrderParams where
  tokenID : String
  amount : ℚ
  side : Side
  orderType : OrderType
  price : Option ℚ
deriving DecidableEq, Repr

/-- One executor interaction: the CopyKey of the event, the event's feed
timestamp, the submitted order parameters and the executor's answer. -/
structure Submission where
  key : String
  ts : ℚ
  params : OrderParams
  result : ExecResult
deriving DecidableEq, Repr

/-- Per-activity outcome of the reconciliation loop: each `continue` of
`copy-trade.ts:131-198` is one skip constructor, in source order. -/
inductive EventOutcome where
  | notTrade
  | tsSkip
  | windowSkip
  | invalidSkip
  | dedupSkip
  | floorSkip
  | submitted (sub : Submission)
deriving DecidableEq, Repr

/-- One entry of the target's activity feed (`TradeActivity` of
`copy-trade.ts:28-38`); fields the loop reads through `??` defaults are
modelled as `Option`. -/
structure TradeActivity where
  type : String
  timestamp : ℚ
  transactionHash : Option String
  asset : Option String
  side : Option String
  price : ℚ
  size : ℚ
  title : Option String
  outcome : Option String
deriving DecidableEq, Repr

/-- Audit record pushed on each successful copy (`CopiedTrade` of
`copy-trade.ts:75-83`). -/
structure CopiedTrade where
  title : String
  outcome : String
  side : String
  amountUsd : ℚ
  price : ℚ
  asset : String
  timestamp : ℚ
deriving DecidableEq, Repr

/-- Result of one pass (`CopyTradeResult` of `copy-trade.ts:85-92`);
`lastTimestamp` is optional because the low-balance abort returns the
result before ever setting it. -/
structure CopyTradeResult where
  copied : ℕ
  failed : ℕ
  error : Option String
  lastTimestamp : Option ℚ
  copiedKeys : List String
  copiedTrades : List CopiedTrade
deriving DecidableEq, Repr

/-- The cursor snapshot handed to `runCopyTrade` (`state:
{ lastTimestamp, copiedKeys }` of `copy-trade.ts:100`). -/
structure CursorState where
  lastTimestamp : ℚ
  copiedKeys : List String
deriving DecidableEq, Repr

/-- Operator policy (`CopyTraderConfig` of `kv.ts`, the sizing-relevant
fields passed through by the handler). -/
structure CopyTraderConfig where
  minPercent : ℚ
  maxPercent : ℚ
  minBetUsd : ℚ
deriving DecidableEq, Repr

/-- Membership-checked append: the behaviour of `Set.prototype.add` on an
insertion-ordered set represented as a duplicate-free list. -/
def insertKey (l : List String) (k : String) : List String :=
  if k ∈ l then l else l ++ [k]

/-- Seeding `new Set(state.copiedKeys)`: fold the stored key list into an
insertion-ordered duplicate-free list. -/
def seedKeys (keys : List String) : List String :=
  keys.foldl insertKey []

/-- Error aggregation of `copy-trade.ts:189/195`: `result.error =
result.error ? result.error + "; " + msg : msg`. -/
def joinError (old : Option String) (msg : String) : Option String :=
  match old with
  | none => some msg
  | some e => some (e ++ "; " ++ msg)

/-- Character-wise uppercase, the model of `String.prototype.toUpperCase`
(agreeing with it on ASCII input). -/
def toUpperStr (s : String) : String :=
  ⟨s.data.map Char.toUpper⟩

/-- Uppercased direction string: `(act.side ?? "BUY").toUpperCase()`. -/
def sideStrOf (act : TradeActivity) : String :=
  toUpperStr (act.side.getD "BUY")

/-- CopyKey construction (`copy-trade.ts:144`):
`transactionHash + "|" + asset + "|" + side`. -/
def keyOf (act : TradeActivity) : String :=
  (act.transactionHash.getD "") ++ "|" ++ (act.asset.getD "") ++ "|" ++ sideStrOf act

/-- Direction mapping of `copy-trade.ts:156`: `BUY` maps to `Side.BUY`,
anything else to `Side.SELL`. -/
def sideOf (act : TradeActivity) : Side :=
  if sideStrOf act = "BUY" then Side.BUY else Side.SELL

/-- Bet sizing (`computeBetSize`, `copy-trade.ts:61-73`). -/
def computeBetSize (cashBalance price minPct maxPct minUsd : ℚ) : ℚ :=
  let minFraction := minPct / 100
  let maxFraction := maxPct / 100
  let pct := minFraction + price * (maxFraction - minFraction)
  let amount := cashBalance * pct
  if minUsd ≤ amount then max amount minUsd else 0

/-- Bet size of one event under the run's balance and config
(`copy-trade.ts:147-153`). -/
def betOf (cfg : CopyTraderConfig) (cashBalance : ℚ) (act : TradeActivity) : ℚ :=
  computeBetSize cashBalance act.price cfg.minPercent cfg.maxPercent cfg.minBetUsd

/-- Order parameters built for one eligible event (`copy-trade.ts:160-166`). -/
def paramsOf (cfg : CopyTraderConfig) (cashBalance : ℚ) (act : TradeActivity) : OrderParams :=
  { tokenID := act.asset.getD ""
    amount := betOf cfg cashBalance act
    side := sideOf act
    orderType := OrderType.FOK
    price := if sideOf act = Side.SELL then some act.price else none }

/-- Decision of the per-event guard chain: either drop the event with the
recorded skip reason, or fire an order. -/
inductive Decision where
  | drop (o : EventOutcome)
  | fire (key : String) (params : OrderParams)
deriving DecidableEq, Repr

/-- The guard chain of the loop body (`copy-trade.ts:132-154`), evaluated
against the running copied set and running `lastTimestamp`; the branch
order is exactly the source's `continue` order. -/
def classify (cfg : CopyTraderConfig) (cashBalance : ℚ) (isFirstRun : Bool)
    (fiveMinAgo : ℚ) (set : List String) (lastTs : ℚ) (act : TradeActivity) : Decision :=
  if act.type ≠ "TRADE" then Decision.drop EventOutcome.notTrade
  else if act.timestamp ≤ lastTs then Decision.drop EventOutcome.tsSkip
  else if isFirstRun = true ∧ act.timestamp < fiveMinAgo then Decision.drop EventOutcome.windowSkip
  else if act.asset.getD "" = "" ∨ act.price ≤ 0 then Decision.drop EventOutcome.invalidSkip
  else if keyOf act ∈ set then Decision.drop EventOutcome.dedupSkip
  else if betOf cfg cashBalance act < cfg.minBetUsd then Decision.drop EventOutcome.floorSkip
  else Decision.fire (keyOf act) (paramsOf cfg cashBalance act)

/-- Mutable loop state of one pass: the running copied set and timestamp of
`copy-trade.ts:123-124`, the accumulating result fields, and the
observation trace. -/
structure LoopState where
  copiedSet : List String
  lastTimestamp : ℚ
  copied : ℕ
  failed : ℕ
  error : Option String
  copiedTrades : List CopiedTrade
  trace : List (TradeActivity × EventOutcome)

/-- Submissions contained in a trace, in pass order. -/
def subsOf (tr : List (TradeActivity × EventOutcome)) : List Submission :=
  tr.filterMap fun e =>
    match e.2 with
    | EventOutcome.submitted s => some s
    | _ => none

/-- Context of one pass: config, fetched balance, first-run flag, recency
cutoff, wall clock for audit records, and the executor oracle. -/
structure RunCtx where
  cfg : CopyTraderConfig
  cashBalance : ℚ
  isFirstRun : Bool
  fiveMinAgo : ℚ
  nowMs : ℚ
  exec : ℕ → OrderParams → ExecResult

/-- Audit record pushed on success (`copy-trade.ts:177-185`). -/
def mkCopied (ctx : RunCtx) (act : TradeActivity) (betUsd : ℚ) : CopiedTrade :=
  { title := act.title.getD "Unknown"
    outcome := act.outcome.getD (if sideStrOf act = "BUY" then "Yes" else "No")
    side := sideStrOf act
    amountUsd := betUsd
    price := act.price
    asset := act.asset.getD ""
    timestamp := ctx.nowMs }

/-- Apply one decision to the loop state (`copy-trade.ts:156-197`): a drop
only logs the outcome; a fire calls the executor and, on success, records
the key, advances the running timestamp and appends the audit record, while
on failure or thrown fault it increments `failed` and aggregates the
message. -/
def applyDecision (ctx : RunCtx) (st : LoopState) (act : TradeActivity) :
    Decision → LoopState
  | Decision.drop o => { st with trace := st.trace ++ [(act, o)] }
  | Decision.fire key params =>
    let res := ctx.exec (subsOf st.trace).length params
    let sub : Submission := ⟨key, act.timestamp, params, res⟩
    match res with
    | ExecResult.success =>
      { st with
        copiedSet := insertKey st.copiedSet key
        lastTimestamp := max st.lastTimestamp act.timestamp
        copied := st.copied + 1
        copiedTrades := st.copiedTrades ++ [mkCopied ctx act params.amount]
        trace := st.trace ++ [(act, EventOutcome.submitted sub)] }
    | ExecResult.failure em =>
      { st with
        failed := st.failed + 1
        error := joinError st.error (em.getD "unknown")
        trace := st.trace ++ [(act, EventOutcome.submitted sub)] }
    | ExecResult.thrown m =>
      { st with
        failed := st.failed + 1
        error := joinError st.error m
        trace := st.trace ++ [(act, EventOutcome.submitted sub)] }

/-- One iteration of the `for (const act of activities)` loop. -/
def processOne (ctx : RunCtx) (st : LoopState) (act : TradeActivity) : LoopState :=
  applyDecision ctx st act
    (classify ctx.cfg ctx.cashBalance ctx.isFirstRun ctx.fiveMinAgo st.copiedSet st.lastTimestamp act)

/-- First-run predicate of `copy-trade.ts:125`: `lastTimestamp === 0 &&
copiedSet.size === 0`. -/
def isFirstRun (state : CursorState) : Bool :=
  decide (state.lastTimestamp = 0) && decide (seedKeys state.copiedKeys = [])

/-- Run context assembled at the start of a pass: the first-run flag of
`copy-trade.ts:125` and the recency cutoff `fiveMinAgo = nowSec - 300` of
`copy-trade.ts:128-129`. -/
def runCtxOf (cfg : CopyTraderConfig) (state : CursorState) (cashBalance nowSec nowMs : ℚ)
    (exec : ℕ → OrderParams → ExecResult) : RunCtx :=
  { cfg := cfg, cashBalance := cashBalance, isFirstRun := isFirstRun state
    fiveMinAgo := nowSec - 300, nowMs := nowMs, exec := exec }

/-- Loop state at the top of the loop: the seeded copied set and the
cursor's `lastTimestamp` (`copy-trade.ts:123-124`), zero counters, no
error, no audit records, empty trace. -/
def initLoopState (state : CursorState) : LoopState :=
  { copiedSet := seedKeys state.copiedKeys, lastTimestamp := state.lastTimestamp
    copied := 0, failed := 0, error := none, copiedTrades := [], trace := [] }

/-- Result assembled after the loop (`copy-trade.ts:200-203`). -/
def mkResult (final : LoopState) : CopyTradeResult :=
  { copied := final.copied, failed := final.failed, error := final.error,
    lastTimestamp := some final.lastTimestamp, copiedKeys := final.copiedSet,
    copiedTrades := final.copiedTrades }

/-- The low-balance abort result (`copy-trade.ts:117-120`). -/
def lowBalanceResult : CopyTradeResult :=
  { copied := 0, failed := 0, error := some "Low balance",
    lastTimestamp := none, copiedKeys := [], copiedTrades := [] }

/-- The reconciliation pass `runCopyTrade` (`copy-trade.ts:94-204`), with
the external fetches replaced by parameters: `cashBalance` is the balance
snapshot, `activities` the fetched activity page, `nowSec` the wall clock
of `Math.floor(Date.now() / 1000)` and `nowMs` of `Date.now()`, and `exec`
the Order Executor.  Returns the `CopyTradeResult` together with the
observation trace. -/
def runCopyTrade (cfg : CopyTraderConfig) (state : CursorState) (cashBalance : ℚ)
    (activities : List TradeActivity) (nowSec nowMs : ℚ)
    (exec : ℕ → OrderParams → ExecResult) :
    CopyTradeResult × List (TradeActivity × EventOutcome) :=
  if cashBalance < 1 then (lowBalanceResult, [])
  else
    let final := activities.foldl
      (processOne (runCtxOf cfg state cashBalance nowSec nowMs exec)) (initLoopState state)
    (mkResult final, final.trace)

/-- The cron handler's cursor persistence merge (`runCopyTradeHandler`,
lines 39-41 of the run route): `lastTimestamp: result.lastTimestamp ??
state.lastTimestamp`, `copiedKeys: result.copiedKeys.length > 0 ?
result.copiedKeys : state.copiedKeys`. -/
def persistedCursor (state : CursorState) (result : CopyTradeResult) : CursorState :=
  { lastTimestamp := result.lastTimestamp.getD state.lastTimestamp
    copiedKeys := if 0 < result.copiedKeys.length then result.copiedKeys else state.copiedKeys }

/-- Cursor written by the manual reset (`resetSyncState` of the second
store revision): `{ lastTimestamp: 0, copiedKeys: [] }`. -/
def resetState : CursorState :=
  { lastTimestamp := 0, copiedKeys := [] }

/-- Whether an executor answer was a success response (`resp?.success`). -/
def isSuccess : ExecResult → Bool
  | ExecResult.success => true
  | _ => false

/-- Timestamps of the successfully copied events of a trace, in pass order. -/
def successTs (tr : List (TradeActivity × EventOutcome)) : List ℚ :=
  tr.filterMap fun e =>
    match e.2 with
    | EventOutcome.submitted s => if isSuccess s.result then some s.ts else none
    | _ => none

/-- Failure reasons of a trace, in pass order: `resp?.errorMsg ?? "unknown"`
for failure responses, the fault message for thrown faults. -/
def failMsgs (tr : List (TradeActivity × EventOutcome)) : List String :=
  tr.filterMap fun e =>
    match e.2 with
    | EventOutcome.submitted s =>
      match s.result with
      | ExecResult.success => none
      | ExecResult.failure em => some (em.getD "unknown")
      | ExecResult.thrown m => some m
    | _ => none

/-- Semicolon-joined aggregation of a list of failure reasons. -/
def errAgg (msgs : List String) : Option String :=
  msgs.foldl joinError none

/-- The failure reason attached to a non-success executor answer:
`resp?.errorMsg ?? "unknown"` for a failure response, the fault message for
a thrown fault. -/
def failReasonOf : ExecResult → Option String
  | ExecResult.success => none
  | ExecResult.failure em => some (em.getD "unknown")
  | ExecResult.thrown m => some m

/-- Outcomes the spec forbids `lastTimestamp` from overtaking: an event
skipped for the recency window, for dedup or for the bet-size floor, or an
event whose submission did not succeed. -/
def overtakeForbidden : EventOutcome → Prop
  | EventOutcome.windowSkip => True
  | EventOutcome.dedupSkip => True
  | EventOutcome.floorSkip => True
  | EventOutcome.submitted s => isSuccess s.result = false
  | _ => False

/-- Raw record held by the durable store under the state key: every field
the revisions read through `??` may be absent. -/
structure StoredState where
  lastTimestamp : Option ℚ
  copiedKeys : Option (List String)
  lastRunAt : Option ℚ
  lastCopiedAt : Option ℚ
  lastError : Option String
deriving DecidableEq, Repr

/-- Cursor state with run metadata (`CopyTraderState` of the store modules). -/
structure CopyTraderStateFull where
  lastTimestamp : ℚ
  copiedKeys : List String
  lastRunAt : Option ℚ
  lastCopiedAt : Option ℚ
  lastError : Option String
deriving DecidableEq, Repr

/-- The `getState` of `src/lib/kv.ts` (lines 40-45): a missing record or
missing fields normalize to `lastTimestamp: 0, copiedKeys: []`; this
revision returns only the two cursor fields. -/
def getState_v1 (s : Option StoredState) : CursorState :=
  match s with
  | some t => { lastTimestamp := t.lastTimestamp.getD 0, copiedKeys := t.copiedKeys.getD [] }
  | none => { lastTimestamp := 0, copiedKeys := [] }

/-- The `getState` of the second store revision (lines 50-61): same cursor
normalization, run metadata passed through. -/
def getState_v2 (s : Option StoredState) : CopyTraderStateFull :=
  match s with
  | some t =>
    { lastTimestamp := t.lastTimestamp.getD 0, copiedKeys := t.copiedKeys.getD []
      lastRunAt := t.lastRunAt, lastCopiedAt := t.lastCopiedAt, lastError := t.lastError }
  | none => { lastTimestamp := 0, copiedKeys := [], lastRunAt := none
              lastCopiedAt := none, lastError := none }

/-- Numeric value of a list of decimal digit characters. -/
def digitsVal (cs : List Char) : ℕ :=
  cs.foldl (fun a c => a * 10 + (c.toNat - 48)) 0

/-- Model of the JavaScript `parseFloat` builtin restricted to plain decimal
literals (optional sign, integer and fractional digits; no exponent or
`Infinity`), parsing the longest valid prefix after trimming leading
whitespace and returning `none` where `parseFloat` returns `NaN`. -/
def jsParseFloat (s : String) : Option ℚ :=
  let cs := s.trim.toList
  let signRest : Bool × List Char :=
    match cs with
    | '-' :: r => (true, r)
    | '+' :: r => (false, r)
    | r => (false, r)
  let intPart := signRest.2.takeWhile Char.isDigit
  let rest := signRest.2.dropWhile Char.isDigit
  let fracPart :=
    match rest with
    | '.' :: r => r.takeWhile Char.isDigit
    | _ => []
  if intPart = [] ∧ fracPart = [] then none
  else
    let v : ℚ := (digitsVal intPart : ℚ) + (digitsVal fracPart : ℚ) / (10 ^ fracPart.length)
    some (if signRest.1 then -v else v)

/-- Outcome of the snapshot fetch and unzip of `getCashBalance`
(`copy-trade.ts:9-15`): a non-OK transport response (`!res.ok`), a zip
parse fault thrown by `JSZip.loadAsync`, or a successfully loaded archive
mapping file names to text contents. -/
inductive SnapshotFetch where
  | transportErr (status : ℕ)
  | zipErr (msg : String)
  | archive (files : List (String × String))
deriving DecidableEq, Repr

/-- The balance source `getCashBalance` (`copy-trade.ts:9-26`): transport
and zip-parse faults become thrown errors (`Except.error`); a loaded
archive is processed purely, with missing file, short CSV, missing
`cashBalance` column or unparsable cell normalized to `0`. -/
def getCashBalance (fetch : SnapshotFetch) : Except String ℚ :=
  match fetch with
  | SnapshotFetch.transportErr status => Except.error ("Snapshot failed: " ++ toString status)
  | SnapshotFetch.zipErr m => Except.error m
  | SnapshotFetch.archive files =>
    match files.lookup "equity.csv" with
    | none => Except.ok 0
    | some text =>
      match text.trim.splitOn "\n" with
      | l0 :: l1 :: _ =>
        let headers := l0.splitOn ","
        let values := l1.splitOn ","
        match headers.findIdx? (fun h => h = "cashBalance") with
        | none => Except.ok 0
        | some cashIdx => Except.ok ((jsParseFloat (values.getD cashIdx "0")).getD 0)
      | _ => Except.ok 0

/-! ### Concrete fixtures for witness instantiations -/

/-- The default operator config of the store modules: 5% to 10%, 1 USD floor. -/
def sampleConfig : CopyTraderConfig :=
  { minPercent := 5, maxPercent := 10, minBetUsd := 1 }

/-- A fresh buy trade event at feed time 1000. -/
def sampleBuy : TradeActivity :=
  { type := "TRADE", timestamp := 1000, transactionHash := some "tx1"
    asset := some "assetA", side := some "buy", price := 1/2, size := 3
    title := some "Market A", outcome := some "Yes" }

/-- A fresh sell trade event at feed time 900. -/
def sampleSell : TradeActivity :=
  { type := "TRADE", timestamp := 900, transactionHash := some "tx2"
    asset := some "assetB", side := some "sell", price := 3/4, size := 2
    title := some "Market B", outcome := some "No" }

/-- A stale trade event at feed time 100, far older than the recency window
of a pass clocked at `nowSec = 1000`. -/
def sampleOld : TradeActivity :=
  { type := "TRADE", timestamp := 100, transactionHash := some "tx0"
    asset := some "assetC", side := some "buy", price := 1/2, size := 3
    title := some "Market C", outcome := some "Yes" }

/-- An executor that fills every order. -/
def execAllSuccess : ℕ → OrderParams → ExecResult :=
  fun _ _ => ExecResult.success

/-- An executor that rejects the first order of the pass and fills the rest. -/
def execFailFirst : ℕ → OrderParams → ExecResult :=
  fun n _ => if n = 0 then ExecResult.failure (some "no fill") else ExecResult.success

/-! ### Helper lemmas about the copied-key set -/

theorem mem_insertKey {l : List String} {a k : String} :
    k ∈ insertKey l a ↔ k ∈ l ∨ k = a := by
  unfold insertKey
  split
  · constructor
    · exact fun h => Or.inl h
    · rintro (h | rfl) <;> assumption
  · simp [List.mem_append]

theorem subset_insertKey {l : List String} {a k : String} (h : k ∈ l) :
    k ∈ insertKey l a :=
  mem_insertKey.mpr (Or.inl h)

theorem mem_foldl_insertKey {k : String} :
    ∀ {l acc : List String}, k ∈ l.foldl insertKey acc ↔ k ∈ acc ∨ k ∈ l := by
  intro l
  induction l with
  | nil => simp [List.foldl]
  | cons a t ih =>
    intro acc
    rw [List.foldl_cons, ih, mem_insertKey]
    simp [or_assoc, or_comm, or_left_comm]

theorem mem_seedKeys {l : List String} {k : String} :
    k ∈ seedKeys l ↔ k ∈ l := by
  unfold seedKeys
  rw [mem_foldl_insertKey]
  simp

theorem foldl_insertKey_of_nodup :
    ∀ {l acc : List String}, l.Nodup → (∀ x ∈ l, x ∉ acc) → l.foldl insertKey acc = acc ++ l := by
  intro l
  induction l with
  | nil => simp
  | cons a t ih =>
    intro acc hnd hdisj
    rw [List.foldl_cons]
    have ha : a ∉ acc := hdisj a (List.mem_cons_self a t)
    have hins : insertKey acc a = acc ++ [a] := by
      unfold insertKey
      exact if_neg ha
    rw [hins, ih (List.nodup_cons.mp hnd).2]
    · simp
    · intro x hx
      rw [List.mem_append]
      rintro (hx1 | hx2)
      · exact hdisj x (List.mem_cons_of_mem a hx) hx1
      · rw [List.mem_singleton] at hx2
        subst hx2
        exact (List.nodup_cons.mp hnd).1 hx

theorem seedKeys_of_nodup {l : List String} (h : l.Nodup) : seedKeys l = l := by
  unfold seedKeys
  rw [foldl_insertKey_of_nodup h (by simp)]
  simp

theorem seedKeys_eq_nil {l : List String} : seedKeys l = [] ↔ l = [] := by
  constructor
  · intro h
    rcases l with _ | ⟨a, t⟩
    · rfl
    · exfalso
      have : a ∈ seedKeys (a :: t) := mem_seedKeys.mpr (List.mem_cons_self a t)
      rw [h] at this
      exact List.not_mem_nil a this
  · rintro rfl
    rfl

/-! ### Inversion lemmas for the guard chain -/

theorem classify_drop_not_submitted {cfg cash fr fma set lastTs act o}
    (h : classify cfg cash fr fma set lastTs act = Decision.drop o) :
    ∀ s, o ≠ EventOutcome.submitted s := by
  unfold classify at h
  split_ifs at h <;> injection h with h <;> subst h <;> intro s <;> simp

theorem classify_tsSkip_inv {cfg cash fr fma set lastTs act}
    (h : classify cfg cash fr fma set lastTs act = Decision.drop EventOutcome.tsSkip) :
    act.type = "TRADE" ∧ act.timestamp ≤ lastTs := by
  unfold classify at h
  split_ifs at h with h1 h2 h3 h4 h5 h6 <;> simp_all [not_le, not_lt, not_or, not_and]

theorem classify_windowSkip_inv {cfg cash fr fma set lastTs act}
    (h : classify cfg cash fr fma set lastTs act = Decision.drop EventOutcome.windowSkip) :
    act.type = "TRADE" ∧ lastTs < act.timestamp ∧ fr = true ∧ act.timestamp < fma := by
  unfold classify at h
  split_ifs at h with h1 h2 h3 h4 h5 h6 <;> simp_all [not_le, not_lt, not_or, not_and]

theorem classify_dedupSkip_inv {cfg cash fr fma set lastTs act}
    (h : classify cfg cash fr fma set lastTs act = Decision.drop EventOutcome.dedupSkip) :
    lastTs < act.timestamp ∧ keyOf act ∈ set := by
  unfold classify at h
  split_ifs at h with h1 h2 h3 h4 h5 h6 <;> simp_all [not_le, not_lt, not_or, not_and]

theorem classify_floorSkip_inv {cfg cash fr fma set lastTs act}
    (h : classify cfg cash fr fma set lastTs act = Decision.drop EventOutcome.floorSkip) :
    lastTs < act.timestamp ∧ betOf cfg cash act < cfg.minBetUsd := by
  unfold classify at h
  split_ifs at h with h1 h2 h3 h4 h5 h6 <;> simp_all [not_le, not_lt, not_or, not_and]

theorem classify_fire_inv {cfg cash fr fma set lastTs act k p}
    (h : classify cfg cash fr fma set lastTs act = Decision.fire k p) :
    act.type = "TRADE" ∧ lastTs < act.timestamp ∧
    (fr = true → fma ≤ act.timestamp) ∧
    act.asset.getD "" ≠ "" ∧ 0 < act.price ∧
    k = keyOf act ∧ k ∉ set ∧
    cfg.minBetUsd ≤ betOf cfg cash act ∧ p = paramsOf cfg cash act := by
  unfold classify at h
  split_ifs at h with h1 h2 h3 h4 h5 h6 <;> simp_all [not_le, not_lt, not_or, not_and]

theorem classify_of_ts_le {cfg cash fr fma set lastTs act}
    (h : act.timestamp ≤ lastTs) :
    classify cfg cash fr fma set lastTs act = Decision.drop EventOutcome.notTrade ∨
    classify cfg cash fr fma set lastTs act = Decision.drop EventOutcome.tsSkip := by
  unfold classify
  split_ifs with h1 <;> simp_all

/-! ### Step analysis: the three shapes of one loop iteration -/

theorem subsOf_append_drop {tr : List (TradeActivity × EventOutcome)} {act : TradeActivity}
    {o : EventOutcome} (ho : ∀ s, o ≠ EventOutcome.submitted s) :
    subsOf (tr ++ [(act, o)]) = subsOf tr := by
  unfold subsOf
  rw [List.filterMap_append]
  have : List.filterMap
      (fun e : TradeActivity × EventOutcome =>
        match e.2 with
        | EventOutcome.submitted s => some s
        | _ => none) [(act, o)] = [] := by
    cases o <;> simp_all [List.filterMap]
  rw [this, List.append_nil]

theorem subsOf_append_submitted {tr : List (TradeActivity × EventOutcome)}
    {act : TradeActivity} {s : Submission} :
    subsOf (tr ++ [(act, EventOutcome.submitted s)]) = subsOf tr ++ [s] := by
  unfold subsOf
  rw [List.filterMap_append]
  rfl

theorem processOne_cases (ctx : RunCtx) (st : LoopState) (act : TradeActivity) :
    (∃ o, (∀ s, o ≠ EventOutcome.submitted s) ∧
      classify ctx.cfg ctx.cashBalance ctx.isFirstRun ctx.fiveMinAgo st.copiedSet
        st.lastTimestamp act = Decision.drop o ∧
      processOne ctx st act = { st with trace := st.trace ++ [(act, o)] }) ∨
    (∃ res,
      classify ctx.cfg ctx.cashBalance ctx.isFirstRun ctx.fiveMinAgo st.copiedSet
        st.lastTimestamp act =
        Decision.fire (keyOf act) (paramsOf ctx.cfg ctx.cashBalance act) ∧
      ((res = ExecResult.success ∧ processOne ctx st act = { st with
          copiedSet := insertKey st.copiedSet (keyOf act)
          lastTimestamp := max st.lastTimestamp act.timestamp
          copied := st.copied + 1
          copiedTrades := st.copiedTrades ++
            [mkCopied ctx act (paramsOf ctx.cfg ctx.cashBalance act).amount]
          trace := st.trace ++ [(act, EventOutcome.submitted
            ⟨keyOf act, act.timestamp, paramsOf ctx.cfg ctx.cashBalance act, res⟩)] }) ∨
       (res ≠ ExecResult.success ∧ ∃ msg, failReasonOf res = some msg ∧
          processOne ctx st act = { st with
          failed := st.failed + 1
          error := joinError st.error msg
          trace := st.trace ++ [(act, EventOutcome.submitted
            ⟨keyOf act, act.timestamp, paramsOf ctx.cfg ctx.cashBalance act, res⟩)] }))) := by
  rcases hc : classify ctx.cfg ctx.cashBalance ctx.isFirstRun ctx.fiveMinAgo st.copiedSet
      st.lastTimestamp act with o | ⟨k, p⟩
  · exact Or.inl ⟨o, classify_drop_not_submitted hc, rfl,
      by simp [processOne, hc, applyDecision]⟩
  · obtain ⟨-, -, -, -, -, hk, -, -, hp⟩ := classify_fire_inv hc
    subst hk
    subst hp
    refine Or.inr ⟨ctx.exec (subsOf st.trace).length (paramsOf ctx.cfg ctx.cashBalance act), rfl, ?_⟩
    rcases hr : ctx.exec (subsOf st.trace).length (paramsOf ctx.cfg ctx.cashBalance act) with
      _ | em | m
    · exact Or.inl ⟨rfl, by simp [processOne, hc, applyDecision, hr]⟩
    · exact Or.inr ⟨by simp, em.getD "unknown", rfl,
        by simp [processOne, hc, applyDecision, hr]⟩
    · exact Or.inr ⟨by simp, m, rfl, by simp [processOne, hc, applyDecision, hr]⟩

/-! ### Trace bookkeeping lemmas -/

theorem successTs_append_drop {tr : List (TradeActivity × EventOutcome)} {act : TradeActivity}
    {o : EventOutcome} (ho : ∀ s, o ≠ EventOutcome.submitted s) :
    successTs (tr ++ [(act, o)]) = successTs tr := by
  unfold successTs
  rw [List.filterMap_append]
  have : List.filterMap
      (fun e : TradeActivity × EventOutcome =>
        match e.2 with
        | EventOutcome.submitted s => if isSuccess s.result then some s.ts else none
        | _ => none) [(act, o)] = [] := by
    cases o <;> simp_all [List.filterMap]
  rw [this, List.append_nil]

theorem successTs_append_submitted {tr : List (TradeActivity × EventOutcome)}
    {act : TradeActivity} {s : Submission} :
    successTs (tr ++ [(act, EventOutcome.submitted s)]) =
      successTs tr ++ (if isSuccess s.result then [s.ts] else []) := by
  unfold successTs
  rw [List.filterMap_append]
  split <;> simp_all [List.filterMap]

theorem failMsgs_append_drop {tr : List (TradeActivity × EventOutcome)} {act : TradeActivity}
    {o : EventOutcome} (ho : ∀ s, o ≠ EventOutcome.submitted s) :
    failMsgs (tr ++ [(act, o)]) = failMsgs tr := by
  unfold failMsgs
  rw [List.filterMap_append]
  have : List.filterMap
      (fun e : TradeActivity × EventOutcome =>
        match e.2 with
        | EventOutcome.submitted s =>
          match s.result with
          | ExecResult.success => none
          | ExecResult.failure em => some (em.getD "unknown")
          | ExecResult.thrown m => some m
        | _ => none) [(act, o)] = [] := by
    cases o <;> simp_all [List.filterMap]
  rw [this, List.append_nil]

theorem failMsgs_append_submitted {tr : List (TradeActivity × EventOutcome)}
    {act : TradeActivity} {s : Submission} :
    failMsgs (tr ++ [(act, EventOutcome.submitted s)]) =
      failMsgs tr ++ (failReasonOf s.result).toList := by
  unfold failMsgs
  rw [List.filterMap_append]
  rcases s with ⟨k, ts, p, res⟩
  cases res <;> simp [List.filterMap, failReasonOf]

theorem errAgg_append {msgs : List String} {m : String} :
    errAgg (msgs ++ [m]) = joinError (errAgg msgs) m := by
  unfold errAgg
  rw [List.foldl_append]
  rfl

/-! ### Fold invariant: counters and error aggregation -/

theorem counts_step (ctx : RunCtx) (st : LoopState) (act : TradeActivity)
    (h1 : st.copied = ((subsOf st.trace).filter fun s => isSuccess s.result).length)
    (h2 : st.failed = ((subsOf st.trace).filter fun s => !isSuccess s.result).length)
    (h3 : st.error = errAgg (failMsgs st.trace)) :
    (processOne ctx st act).copied =
      ((subsOf (processOne ctx st act).trace).filter fun s => isSuccess s.result).length ∧
    (processOne ctx st act).failed =
      ((subsOf (processOne ctx st act).trace).filter fun s => !isSuccess s.result).length ∧
    (processOne ctx st act).error = errAgg (failMsgs (processOne ctx st act).trace) := by
  rcases processOne_cases ctx st act with ⟨o, ho, hc, he⟩ |
    ⟨res, hc, ⟨hres, he⟩ | ⟨hres, msg, hmsg, he⟩⟩
  · rw [he]
    exact ⟨by rw [subsOf_append_drop ho]; exact h1,
           by rw [subsOf_append_drop ho]; exact h2,
           by rw [failMsgs_append_drop ho]; exact h3⟩
  · subst hres
    rw [he]
    refine ⟨?_, ?_, ?_⟩
    · rw [subsOf_append_submitted]
      simp [List.filter_append, isSuccess, h1]
    · rw [subsOf_append_submitted]
      simp [List.filter_append, isSuccess, h2]
    · rw [failMsgs_append_submitted]
      simp [failReasonOf, h3]
  · rw [he]
    have hsucc : isSuccess res = false := by
      cases res <;> simp_all [isSuccess]
    refine ⟨?_, ?_, ?_⟩
    · rw [subsOf_append_submitted]
      simp [List.filter_append, hsucc, h1]
    · rw [subsOf_append_submitted]
      simp [List.filter_append, hsucc, h2]
    · rw [failMsgs_append_submitted, hmsg]
      simp [errAgg_append, h3]

theorem counts_foldl (ctx : RunCtx) (l : List TradeActivity) :
    ∀ st : LoopState,
    st.copied = ((subsOf st.trace).filter fun s => isSuccess s.result).length →
    st.failed = ((subsOf st.trace).filter fun s => !isSuccess s.result).length →
    st.error = errAgg (failMsgs st.trace) →
    (l.foldl (processOne ctx) st).copied =
      ((subsOf (l.foldl (processOne ctx) st).trace).filter fun s => isSuccess s.result).length ∧
    (l.foldl (processOne ctx) st).failed =
      ((subsOf (l.foldl (processOne ctx) st).trace).filter fun s => !isSuccess s.result).length ∧
    (l.foldl (processOne ctx) st).error = errAgg (failMsgs (l.foldl (processOne ctx) st).trace) := by
  induction l with
  | nil => exact fun st h1 h2 h3 => ⟨h1, h2, h3⟩
  | cons a t ih =>
    intro st h1 h2 h3
    rw [List.foldl_cons]
    obtain ⟨g1, g2, g3⟩ := counts_step ctx st a h1 h2 h3
    exact ih _ g1 g2 g3

/-! ### Fold invariant: key provenance and exactly-once submission -/

theorem keyprov_step (ctx : RunCtx) (st : LoopState) (act : TradeActivity) (keys0 : List String)
    (h : ∀ k, k ∈ st.copiedSet ↔ k ∈ keys0 ∨
      ∃ s ∈ subsOf st.trace, isSuccess s.result = true ∧ s.key = k) :
    ∀ k, k ∈ (processOne ctx st act).copiedSet ↔ k ∈ keys0 ∨
      ∃ s ∈ subsOf (processOne ctx st act).trace, isSuccess s.result = true ∧ s.key = k := by
  rcases processOne_cases ctx st act with ⟨o, ho, hc, he⟩ |
    ⟨res, hc, ⟨hres, he⟩ | ⟨hres, msg, hmsg, he⟩⟩
  · rw [he]
    intro k
    simpa [subsOf_append_drop ho] using h k
  · subst hres
    rw [he]
    intro k
    simp only [subsOf_append_submitted]
    rw [mem_insertKey, h k]
    constructor
    · rintro ((hk | ⟨s, hs, hsucc, rfl⟩) | rfl)
      · exact Or.inl hk
      · exact Or.inr ⟨s, List.mem_append_left _ hs, hsucc, rfl⟩
      · exact Or.inr ⟨_, List.mem_append_right _ (List.mem_singleton_self _),
          by simp [isSuccess], rfl⟩
    · rintro (hk | ⟨s, hs, hsucc, rfl⟩)
      · exact Or.inl (Or.inl hk)
      · rcases List.mem_append.mp hs with hs | hs
        · exact Or.inl (Or.inr ⟨s, hs, hsucc, rfl⟩)
        · rw [List.mem_singleton] at hs
          subst hs
          exact Or.inr rfl
  · rw [he]
    intro k
    simp only [subsOf_append_submitted]
    rw [h k]
    have hsucc : isSuccess res = false := by
      cases res <;> simp_all [isSuccess]
    constructor
    · rintro (hk | ⟨s, hs, hsu, rfl⟩)
      · exact Or.inl hk
      · exact Or.inr ⟨s, List.mem_append_left _ hs, hsu, rfl⟩
    · rintro (hk | ⟨s, hs, hsu, rfl⟩)
      · exact Or.inl hk
      · rcases List.mem_append.mp hs with hs | hs
        · exact Or.inr ⟨s, hs, hsu, rfl⟩
        · rw [List.mem_singleton] at hs
          subst hs
          rw [hsucc] at hsu
          cases hsu

theorem keyprov_foldl (ctx : RunCtx) (l : List TradeActivity) (keys0 : List String) :
    ∀ st : LoopState,
    (∀ k, k ∈ st.copiedSet ↔ k ∈ keys0 ∨
      ∃ s ∈ subsOf st.trace, isSuccess s.result = true ∧ s.key = k) →
    ∀ k, k ∈ (l.foldl (processOne ctx) st).copiedSet ↔ k ∈ keys0 ∨
      ∃ s ∈ subsOf (l.foldl (processOne ctx) st).trace, isSuccess s.result = true ∧ s.key = k := by
  induction l with
  | nil => exact fun st h => h
  | cons a t ih =>
    intro st h
    rw [List.foldl_cons]
    exact ih _ (keyprov_step ctx st a keys0 h)

theorem dedup_step (ctx : RunCtx) (st : LoopState) (act : TradeActivity) (keys0 : List String)
    (h1 : ∀ k ∈ keys0, k ∈ st.copiedSet)
    (h2 : ∀ s ∈ subsOf st.trace, isSuccess s.result = true → s.key ∈ st.copiedSet)
    (h3 : ∀ s ∈ subsOf st.trace, s.key ∉ keys0)
    (h4 : (subsOf st.trace).Pairwise fun a b => isSuccess a.result = true → a.key ≠ b.key) :
    (∀ k ∈ keys0, k ∈ (processOne ctx st act).copiedSet) ∧
    (∀ s ∈ subsOf (processOne ctx st act).trace, isSuccess s.result = true →
      s.key ∈ (processOne ctx st act).copiedSet) ∧
    (∀ s ∈ subsOf (processOne ctx st act).trace, s.key ∉ keys0) ∧
    ((subsOf (processOne ctx st act).trace).Pairwise
      fun a b => isSuccess a.result = true → a.key ≠ b.key) := by
  rcases processOne_cases ctx st act with ⟨o, ho, hc, he⟩ |
    ⟨res, hc, ⟨hres, he⟩ | ⟨hres, msg, hmsg, he⟩⟩
  · rw [he]
    dsimp only
    rw [subsOf_append_drop ho]
    exact ⟨h1, h2, h3, h4⟩
  · obtain ⟨-, -, -, -, -, -, hnotin, -, -⟩ := classify_fire_inv hc
    subst hres
    rw [he]
    dsimp only
    rw [subsOf_append_submitted]
    refine ⟨fun k hk => subset_insertKey (h1 k hk), ?_, ?_, ?_⟩
    · intro s hs hsu
      rcases List.mem_append.mp hs with hs | hs
      · exact subset_insertKey (h2 s hs hsu)
      · rw [List.mem_singleton] at hs
        subst hs
        exact mem_insertKey.mpr (Or.inr rfl)
    · intro s hs
      rcases List.mem_append.mp hs with hs | hs
      · exact h3 s hs
      · rw [List.mem_singleton] at hs
        subst hs
        exact fun hk => hnotin (h1 _ hk)
    · rw [List.pairwise_append]
      refine ⟨h4, List.pairwise_singleton _ _, ?_⟩
      intro a ha b hb
      rw [List.mem_singleton] at hb
      subst hb
      intro hsu heq
      have heq2 : a.key = keyOf act := heq
      apply hnotin
      rw [← heq2]
      exact h2 a ha hsu
  · rw [he]
    dsimp only
    rw [subsOf_append_submitted]
    have hsucc : isSuccess res = false := by
      cases res <;> simp_all [isSuccess]
    obtain ⟨-, -, -, -, -, -, hnotin, -, -⟩ := classify_fire_inv hc
    refine ⟨h1, ?_, ?_, ?_⟩
    · intro s hs hsu
      rcases List.mem_append.mp hs with hs | hs
      · exact h2 s hs hsu
      · rw [List.mem_singleton] at hs
        subst hs
        have : isSuccess res = true := hsu
        rw [hsucc] at this
        cases this
    · intro s hs
      rcases List.mem_append.mp hs with hs | hs
      · exact h3 s hs
      · rw [List.mem_singleton] at hs
        subst hs
        exact fun hk => hnotin (h1 _ hk)
    · rw [List.pairwise_append]
      refine ⟨h4, List.pairwise_singleton _ _, ?_⟩
      intro a ha b hb
      rw [List.mem_singleton] at hb
      subst hb
      intro hsu heq
      have heq2 : a.key = keyOf act := heq
      apply hnotin
      rw [← heq2]
      exact h2 a ha hsu

theorem dedup_foldl (ctx : RunCtx) (l : List TradeActivity) (keys0 : List String) :
    ∀ st : LoopState,
    (∀ k ∈ keys0, k ∈ st.copiedSet) →
    (∀ s ∈ subsOf st.trace, isSuccess s.result = true → s.key ∈ st.copiedSet) →
    (∀ s ∈ subsOf st.trace, s.key ∉ keys0) →
    ((subsOf st.trace).Pairwise fun a b => isSuccess a.result = true → a.key ≠ b.key) →
    (∀ k ∈ keys0, k ∈ (l.foldl (processOne ctx) st).copiedSet) ∧
    (∀ s ∈ subsOf (l.foldl (processOne ctx) st).trace, isSuccess s.result = true →
      s.key ∈ (l.foldl (processOne ctx) st).copiedSet) ∧
    (∀ s ∈ subsOf (l.foldl (processOne ctx) st).trace, s.key ∉ keys0) ∧
    ((subsOf (l.foldl (processOne ctx) st).trace).Pairwise
      fun a b => isSuccess a.result = true → a.key ≠ b.key) := by
  induction l with
  | nil => exact fun st g1 g2 g3 g4 => ⟨g1, g2, g3, g4⟩
  | cons a t ih =>
    intro st g1 g2 g3 g4
    rw [List.foldl_cons]
    obtain ⟨q1, q2, q3, q4⟩ := dedup_step ctx st a keys0 g1 g2 g3 g4
    exact ih _ q1 q2 q3 q4

/-! ### Fold invariant: `lastTimestamp` advancement -/

theorem le_foldl_max {l : List ℚ} : ∀ {b : ℚ}, b ≤ l.foldl max b := by
  induction l with
  | nil => intro b; exact le_refl b
  | cons t ts ih =>
    intro b
    rw [List.foldl_cons]
    exact le_trans (le_max_left b t) ih

theorem foldl_max_le {l : List ℚ} {B : ℚ} : ∀ {b : ℚ}, b ≤ B → (∀ x ∈ l, x ≤ B) →
    l.foldl max b ≤ B := by
  induction l with
  | nil => exact fun hb _ => hb
  | cons t ts ih =>
    intro b hb hl
    rw [List.foldl_cons]
    exact ih (max_le hb (hl t (List.mem_cons_self t ts))) fun x hx =>
      hl x (List.mem_cons_of_mem t hx)

theorem tsadv_step (ctx : RunCtx) (st : LoopState) (act : TradeActivity) (base : ℚ)
    (h : st.lastTimestamp = (successTs st.trace).foldl max base) :
    (processOne ctx st act).lastTimestamp =
      (successTs (processOne ctx st act).trace).foldl max base := by
  rcases processOne_cases ctx st act with ⟨o, ho, hc, he⟩ |
    ⟨res, hc, ⟨hres, he⟩ | ⟨hres, msg, hmsg, he⟩⟩
  · rw [he]
    dsimp only
    rw [successTs_append_drop ho]
    exact h
  · subst hres
    rw [he]
    dsimp only
    rw [successTs_append_submitted]
    simp only [isSuccess, if_pos]
    rw [List.foldl_append, List.foldl_cons, List.foldl_nil, h]
  · rw [he]
    dsimp only
    rw [successTs_append_submitted]
    have hsucc : isSuccess res = false := by
      cases res <;> simp_all [isSuccess]
    rw [hsucc]
    simp only [if_neg Bool.false_ne_true, List.append_nil]
    exact h

theorem tsadv_foldl (ctx : RunCtx) (l : List TradeActivity) (base : ℚ) :
    ∀ st : LoopState, st.lastTimestamp = (successTs st.trace).foldl max base →
    (l.foldl (processOne ctx) st).lastTimestamp =
      (successTs (l.foldl (processOne ctx) st).trace).foldl max base := by
  induction l with
  | nil => exact fun st h => h
  | cons a t ih =>
    intro st h
    rw [List.foldl_cons]
    exact ih _ (tsadv_step ctx st a base h)

/-! ### Fold invariant: no overtaking of skipped or failed events -/

theorem overtake_step (ctx : RunCtx) (st : LoopState) (act : TradeActivity)
    (rest : List TradeActivity)
    (hhead : ∀ x ∈ rest, x.timestamp ≤ act.timestamp)
    (hinv : ∀ e ∈ st.trace, overtakeForbidden e.2 →
      st.lastTimestamp ≤ e.1.timestamp ∧ ∀ x ∈ act :: rest, x.timestamp ≤ e.1.timestamp) :
    ∀ e ∈ (processOne ctx st act).trace, overtakeForbidden e.2 →
      (processOne ctx st act).lastTimestamp ≤ e.1.timestamp ∧
      ∀ x ∈ rest, x.timestamp ≤ e.1.timestamp := by
  rcases processOne_cases ctx st act with ⟨o, ho, hc, he⟩ |
    ⟨res, hc, ⟨hres, he⟩ | ⟨hres, msg, hmsg, he⟩⟩
  · rw [he]
    dsimp only
    intro e hel hf
    rcases List.mem_append.mp hel with hel | hel
    · obtain ⟨ha, hb⟩ := hinv e hel hf
      exact ⟨ha, fun x hx => hb x (List.mem_cons_of_mem act hx)⟩
    · rw [List.mem_singleton] at hel
      subst hel
      dsimp only at hf ⊢
      have hts : st.lastTimestamp < act.timestamp := by
        rcases o with _ | _ | _ | _ | _ | _ | s
        · cases hf
        · cases hf
        · exact (classify_windowSkip_inv hc).2.1
        · cases hf
        · exact (classify_dedupSkip_inv hc).1
        · exact (classify_floorSkip_inv hc).1
        · exact absurd rfl (ho s)
      exact ⟨le_of_lt hts, hhead⟩
  · subst hres
    rw [he]
    dsimp only
    intro e hel hf
    rcases List.mem_append.mp hel with hel | hel
    · obtain ⟨ha, hb⟩ := hinv e hel hf
      refine ⟨max_le ha (hb act (List.mem_cons_self act rest)), fun x hx =>
        hb x (List.mem_cons_of_mem act hx)⟩
    · rw [List.mem_singleton] at hel
      subst hel
      unfold overtakeForbidden at hf
      dsimp only at hf
      rw [show isSuccess ExecResult.success = true from rfl] at hf
      cases hf
  · rw [he]
    dsimp only
    intro e hel hf
    rcases List.mem_append.mp hel with hel | hel
    · obtain ⟨ha, hb⟩ := hinv e hel hf
      exact ⟨ha, fun x hx => hb x (List.mem_cons_of_mem act hx)⟩
    · rw [List.mem_singleton] at hel
      subst hel
      have hts : st.lastTimestamp < act.timestamp := (classify_fire_inv hc).2.1
      exact ⟨le_of_lt hts, hhead⟩

theorem overtake_foldl (ctx : RunCtx) :
    ∀ (l : List TradeActivity) (st : LoopState),
    l.Pairwise (fun a b => b.timestamp ≤ a.timestamp) →
    (∀ e ∈ st.trace, overtakeForbidden e.2 →
      st.lastTimestamp ≤ e.1.timestamp ∧ ∀ x ∈ l, x.timestamp ≤ e.1.timestamp) →
    ∀ e ∈ (l.foldl (processOne ctx) st).trace, overtakeForbidden e.2 →
      (l.foldl (processOne ctx) st).lastTimestamp ≤ e.1.timestamp := by
  intro l
  induction l with
  | nil =>
    intro st _ hinv e hel hf
    exact (hinv e hel hf).1
  | cons a t ih =>
    intro st hsort hinv
    rw [List.foldl_cons]
    have hpair := List.pairwise_cons.mp hsort
    exact ih _ hpair.2 (overtake_step ctx st a t hpair.1 hinv)

/-! ### Fold invariant: a pass with no new events changes nothing -/

theorem frozen_step (ctx : RunCtx) (st : LoopState) (act : TradeActivity)
    (h : act.timestamp ≤ st.lastTimestamp) :
    ∃ o, (∀ s, o ≠ EventOutcome.submitted s) ∧
      processOne ctx st act = { st with trace := st.trace ++ [(act, o)] } := by
  rcases @classify_of_ts_le ctx.cfg ctx.cashBalance ctx.isFirstRun ctx.fiveMinAgo
      st.copiedSet st.lastTimestamp act h with hc | hc
  · exact ⟨EventOutcome.notTrade, by intro s; simp, by simp [processOne, hc, applyDecision]⟩
  · exact ⟨EventOutcome.tsSkip, by intro s; simp, by simp [processOne, hc, applyDecision]⟩

theorem frozen_foldl (ctx : RunCtx) (l : List TradeActivity) (base : ℚ)
    (hl : ∀ a ∈ l, a.timestamp ≤ base) :
    ∀ st : LoopState, st.lastTimestamp = base →
    (l.foldl (processOne ctx) st).copiedSet = st.copiedSet ∧
    (l.foldl (processOne ctx) st).lastTimestamp = st.lastTimestamp ∧
    (l.foldl (processOne ctx) st).copied = st.copied ∧
    (l.foldl (processOne ctx) st).failed = st.failed ∧
    (l.foldl (processOne ctx) st).error = st.error ∧
    (l.foldl (processOne ctx) st).copiedTrades = st.copiedTrades ∧
    subsOf (l.foldl (processOne ctx) st).trace = subsOf st.trace := by
  induction l with
  | nil => exact fun st _ => ⟨rfl, rfl, rfl, rfl, rfl, rfl, rfl⟩
  | cons a t ih =>
    intro st hb
    rw [List.foldl_cons]
    obtain ⟨o, ho, he⟩ := frozen_step ctx st a (by rw [hb]; exact hl a (List.mem_cons_self a t))
    obtain ⟨g1, g2, g3, g4, g5, g6, g7⟩ :=
      ih (fun x hx => hl x (List.mem_cons_of_mem a hx)) (processOne ctx st a) (by rw [he]; exact hb)
    have e1 : (processOne ctx st a).copiedSet = st.copiedSet := by rw [he]
    have e2 : (processOne ctx st a).lastTimestamp = st.lastTimestamp := by rw [he]
    have e3 : (processOne ctx st a).copied = st.copied := by rw [he]
    have e4 : (processOne ctx st a).failed = st.failed := by rw [he]
    have e5 : (processOne ctx st a).error = st.error := by rw [he]
    have e6 : (processOne ctx st a).copiedTrades = st.copiedTrades := by rw [he]
    have e7 : subsOf (processOne ctx st a).trace = subsOf st.trace := by
      rw [he]
      dsimp only
      exact subsOf_append_drop ho
    rw [e1] at g1
    rw [e2] at g2
    rw [e3] at g3
    rw [e4] at g4
    rw [e5] at g5
    rw [e6] at g6
    rw [e7] at g7
    exact ⟨g1, g2, g3, g4, g5, g6, g7⟩

/-! ### Fold invariant: shape of every submitted order -/

theorem subshape_step (ctx : RunCtx) (st : LoopState) (act : TradeActivity)
    (h : ∀ e ∈ st.trace, ∀ s, e.2 = EventOutcome.submitted s →
      s.key = keyOf e.1 ∧ s.ts = e.1.timestamp ∧ s.params = paramsOf ctx.cfg ctx.cashBalance e.1) :
    ∀ e ∈ (processOne ctx st act).trace, ∀ s, e.2 = EventOutcome.submitted s →
      s.key = keyOf e.1 ∧ s.ts = e.1.timestamp ∧
      s.params = paramsOf ctx.cfg ctx.cashBalance e.1 := by
  rcases processOne_cases ctx st act with ⟨o, ho, hc, he⟩ |
    ⟨res, hc, ⟨hres, he⟩ | ⟨hres, msg, hmsg, he⟩⟩ <;> rw [he] <;> dsimp only <;>
    intro e hel s hs <;> rcases List.mem_append.mp hel with hel | hel
  · exact h e hel s hs
  · rw [List.mem_singleton] at hel
    subst hel
    exact absurd hs (ho s)
  · exact h e hel s hs
  · rw [List.mem_singleton] at hel
    subst hel
    dsimp only at hs
    injection hs with hs
    subst hs
    exact ⟨rfl, rfl, rfl⟩
  · exact h e hel s hs
  · rw [List.mem_singleton] at hel
    subst hel
    dsimp only at hs
    injection hs with hs
    subst hs
    exact ⟨rfl, rfl, rfl⟩

theorem subshape_foldl (ctx : RunCtx) (l : List TradeActivity) :
    ∀ st : LoopState,
    (∀ e ∈ st.trace, ∀ s, e.2 = EventOutcome.submitted s →
      s.key = keyOf e.1 ∧ s.ts = e.1.timestamp ∧
      s.params = paramsOf ctx.cfg ctx.cashBalance e.1) →
    ∀ e ∈ (l.foldl (processOne ctx) st).trace, ∀ s, e.2 = EventOutcome.submitted s →
      s.key = keyOf e.1 ∧ s.ts = e.1.timestamp ∧
      s.params = paramsOf ctx.cfg ctx.cashBalance e.1 := by
  induction l with
  | nil => exact fun st h => h
  | cons a t ih =>
    intro st h
    rw [List.foldl_cons]
    exact ih _ (subshape_step ctx st a h)

/-! ### Fold invariants: the first-run recency window -/

theorem window_skip_step (ctx : RunCtx) (st : LoopState) (act : TradeActivity)
    (hfr : ctx.isFirstRun = true)
    (h : ∀ e ∈ st.trace, e.1.type = "TRADE" → e.1.timestamp < ctx.fiveMinAgo →
      ∀ s, e.2 ≠ EventOutcome.submitted s) :
    ∀ e ∈ (processOne ctx st act).trace, e.1.type = "TRADE" →
      e.1.timestamp < ctx.fiveMinAgo → ∀ s, e.2 ≠ EventOutcome.submitted s := by
  rcases processOne_cases ctx st act with ⟨o, ho, hc, he⟩ |
    ⟨res, hc, ⟨hres, he⟩ | ⟨hres, msg, hmsg, he⟩⟩ <;> rw [he] <;> dsimp only <;>
    intro e hel ht hw s <;> rcases List.mem_append.mp hel with hel | hel
  · exact h e hel ht hw s
  · rw [List.mem_singleton] at hel
    subst hel
    exact ho s
  · exact h e hel ht hw s
  · rw [List.mem_singleton] at hel
    subst hel
    dsimp only at ht hw
    exact absurd hw (not_lt.mpr ((classify_fire_inv hc).2.2.1 hfr))
  · exact h e hel ht hw s
  · rw [List.mem_singleton] at hel
    subst hel
    dsimp only at ht hw
    exact absurd hw (not_lt.mpr ((classify_fire_inv hc).2.2.1 hfr))

theorem window_skip_foldl (ctx : RunCtx) (l : List TradeActivity) (hfr : ctx.isFirstRun = true) :
    ∀ st : LoopState,
    (∀ e ∈ st.trace, e.1.type = "TRADE" → e.1.timestamp < ctx.fiveMinAgo →
      ∀ s, e.2 ≠ EventOutcome.submitted s) →
    ∀ e ∈ (l.foldl (processOne ctx) st).trace, e.1.type = "TRADE" →
      e.1.timestamp < ctx.fiveMinAgo → ∀ s, e.2 ≠ EventOutcome.submitted s := by
  induction l with
  | nil => exact fun st h => h
  | cons a t ih =>
    intro st h
    rw [List.foldl_cons]
    exact ih _ (window_skip_step ctx st a hfr h)

theorem no_windowSkip_step (ctx : RunCtx) (st : LoopState) (act : TradeActivity)
    (h : ∀ e ∈ st.trace, ctx.fiveMinAgo ≤ e.1.timestamp ∨ ctx.isFirstRun = false →
      e.2 ≠ EventOutcome.windowSkip) :
    ∀ e ∈ (processOne ctx st act).trace, ctx.fiveMinAgo ≤ e.1.timestamp ∨
      ctx.isFirstRun = false → e.2 ≠ EventOutcome.windowSkip := by
  rcases processOne_cases ctx st act with ⟨o, ho, hc, he⟩ |
    ⟨res, hc, ⟨hres, he⟩ | ⟨hres, msg, hmsg, he⟩⟩ <;> rw [he] <;> dsimp only <;>
    intro e hel hcond <;> rcases List.mem_append.mp hel with hel | hel
  · exact h e hel hcond
  · rw [List.mem_singleton] at hel
    subst hel
    dsimp only at hcond ⊢
    intro hw
    subst hw
    obtain ⟨-, -, hfr, hlt⟩ := classify_windowSkip_inv hc
    rcases hcond with hge | hnf
    · exact absurd hlt (not_lt.mpr hge)
    · rw [hfr] at hnf
      cases hnf
  · exact h e hel hcond
  · rw [List.mem_singleton] at hel
    subst hel
    intro hw
    cases hw
  · exact h e hel hcond
  · rw [List.mem_singleton] at hel
    subst hel
    intro hw
    cases hw

theorem no_windowSkip_foldl (ctx : RunCtx) (l : List TradeActivity) :
    ∀ st : LoopState,
    (∀ e ∈ st.trace, ctx.fiveMinAgo ≤ e.1.timestamp ∨ ctx.isFirstRun = false →
      e.2 ≠ EventOutcome.windowSkip) →
    ∀ e ∈ (l.foldl (processOne ctx) st).trace, ctx.fiveMinAgo ≤ e.1.timestamp ∨
      ctx.isFirstRun = false → e.2 ≠ EventOutcome.windowSkip := by
  induction l with
  | nil => exact fun st h => h
  | cons a t ih =>
    intro st h
    rw [List.foldl_cons]
    exact ih _ (no_windowSkip_step ctx st a h)

/-! ### Trace covers every fetched activity in order -/

theorem trace_activities_foldl (ctx : RunCtx) :
    ∀ (l : List TradeActivity) (st : LoopState),
    (l.foldl (processOne ctx) st).trace.map Prod.fst = st.trace.map Prod.fst ++ l := by
  intro l
  induction l with
  | nil => intro st; simp
  | cons a t ih =>
    intro st
    rw [List.foldl_cons, ih]
    rcases processOne_cases ctx st a with ⟨o, ho, hc, he⟩ |
      ⟨res, hc, ⟨hres, he⟩ | ⟨hres, msg, hmsg, he⟩⟩ <;> rw [he] <;> simp

/-! ### Unfolding the pass at the balance gate -/

theorem runCopyTrade_low {cfg state cash acts nowSec nowMs exec} (h : cash < 1) :
    runCopyTrade cfg state cash acts nowSec nowMs exec = (lowBalanceResult, []) := by
  unfold runCopyTrade
  rw [if_pos h]

theorem runCopyTrade_ok {cfg state cash acts nowSec nowMs exec} (h : ¬cash < 1) :
    runCopyTrade cfg state cash acts nowSec nowMs exec =
      (mkResult (acts.foldl (processOne (runCtxOf cfg state cash nowSec nowMs exec))
         (initLoopState state)),
       (acts.foldl (processOne (runCtxOf cfg state cash nowSec nowMs exec))
         (initLoopState state)).trace) := by
  unfold runCopyTrade
  rw [if_neg h]

/-! ### Claim theorems -/

/-- C1: within one reconciliation pass, no CopyKey that is in the input
cursor's copied-key set, and no CopyKey whose submission already succeeded
earlier in the same pass, is ever submitted to the Order Executor again —
even when the same transaction reference appears in several events of the
fetched page — and every key whose submission succeeds is contained in the
returned `copiedKeys`. -/
theorem copykey_exactly_once (cfg : CopyTraderConfig) (state : CursorState) (cash : ℚ)
    (acts : List TradeActivity) (nowSec nowMs : ℚ) (exec : ℕ → OrderParams → ExecResult) :
    (∀ s ∈ subsOf (runCopyTrade cfg state cash acts nowSec nowMs exec).2,
      s.key ∉ state.copiedKeys) ∧
    ((subsOf (runCopyTrade cfg state cash acts nowSec nowMs exec).2).Pairwise
      fun a b => isSuccess a.result = true → a.key ≠ b.key) ∧
    (∀ s ∈ subsOf (runCopyTrade cfg state cash acts nowSec nowMs exec).2,
      isSuccess s.result = true →
      s.key ∈ (runCopyTrade cfg state cash acts nowSec nowMs exec).1.copiedKeys) := by
  by_cases h : cash < 1
  · rw [runCopyTrade_low h]
    exact ⟨fun s hs => absurd hs (List.not_mem_nil s),
      List.Pairwise.nil, fun s hs => absurd hs (List.not_mem_nil s)⟩
  · rw [runCopyTrade_ok h]
    dsimp only [mkResult]
    have hinit : subsOf (initLoopState state).trace = [] := rfl
    obtain ⟨d1, d2, d3, d4⟩ := dedup_foldl (runCtxOf cfg state cash nowSec nowMs exec) acts
      state.copiedKeys (initLoopState state)
      (fun k hk => mem_seedKeys.mpr hk)
      (fun s hs => absurd (hinit ▸ hs) (List.not_mem_nil s))
      (fun s hs => absurd (hinit ▸ hs) (List.not_mem_nil s))
      (hinit ▸ List.Pairwise.nil)
    exact ⟨d3, d4, d2⟩

/-- Witness for C1 at a concrete pass: a duplicated buy event is submitted
only once and its CopyKey lands in the returned `copiedKeys`. -/
theorem copykey_exactly_once_witness :
    ("tx1|assetA|BUY" : String) ∈
      (runCopyTrade sampleConfig ⟨0, []⟩ 100 [sampleBuy, sampleBuy] 1000 5
        execAllSuccess).1.copiedKeys :=
  (copykey_exactly_once sampleConfig ⟨0, []⟩ 100 [sampleBuy, sampleBuy] 1000 5
      execAllSuccess).2.2
    ⟨"tx1|assetA|BUY", 1000, paramsOf sampleConfig 100 sampleBuy, ExecResult.success⟩
    (by decide) (by decide)

/-- C2: when the balance check passes and the fetched page is
reverse-chronological, the returned `lastTimestamp` is exactly the maximum
of the input cursor's value and the timestamps of the successfully copied
events; in particular it never decreases, and it never strictly overtakes
an event that was skipped for the recency window, for dedup or for the
bet-size floor, or whose submission failed. -/
theorem lastTimestamp_advancement (cfg : CopyTraderConfig) (state : CursorState) (cash : ℚ)
    (acts : List TradeActivity) (nowSec nowMs : ℚ) (exec : ℕ → OrderParams → ExecResult)
    (hbal : ¬cash < 1)
    (hsort : acts.Pairwise fun a b => b.timestamp ≤ a.timestamp) :
    (runCopyTrade cfg state cash acts nowSec nowMs exec).1.lastTimestamp =
      some ((successTs (runCopyTrade cfg state cash acts nowSec nowMs exec).2).foldl max
        state.lastTimestamp) ∧
    state.lastTimestamp ≤
      (successTs (runCopyTrade cfg state cash acts nowSec nowMs exec).2).foldl max
        state.lastTimestamp ∧
    (∀ e ∈ (runCopyTrade cfg state cash acts nowSec nowMs exec).2, overtakeForbidden e.2 →
      (successTs (runCopyTrade cfg state cash acts nowSec nowMs exec).2).foldl max
        state.lastTimestamp ≤ e.1.timestamp) := by
  rw [runCopyTrade_ok hbal]
  dsimp only [mkResult]
  have htsadv := tsadv_foldl (runCtxOf cfg state cash nowSec nowMs exec) acts
    state.lastTimestamp (initLoopState state) rfl
  refine ⟨by rw [htsadv], le_foldl_max, ?_⟩
  intro e he hf
  rw [← htsadv]
  exact overtake_foldl (runCtxOf cfg state cash nowSec nowMs exec) acts (initLoopState state)
    hsort (fun e' he' => absurd he' (List.not_mem_nil e')) e he hf

/-- Witness for C2 at a concrete pass: two successful copies at feed times
1000 and 900 over a zero cursor advance the returned timestamp to 1000. -/
theorem lastTimestamp_advancement_witness :
    (runCopyTrade sampleConfig ⟨0, []⟩ 100 [sampleBuy, sampleSell] 1000 5
      execAllSuccess).1.lastTimestamp = some 1000 := by
  have h := (lastTimestamp_advancement sampleConfig ⟨0, []⟩ 100 [sampleBuy, sampleSell] 1000 5
    execAllSuccess (by decide) (by decide)).1
  rw [h]
  decide

/-- C3: when the balance check passes, every fetched event is processed (a
failure does not stop the pass), `failed` counts exactly the non-success
submissions and `copied` the successes, `error` is the semicolon-joined
aggregation of the failure reasons in pass order, a key enters the returned
`copiedKeys` only from the input cursor or a successful submission (so a
failed submission whose key never succeeds is not recorded), and
`lastTimestamp` advances only over successful submissions. -/
theorem per_event_failure_isolated (cfg : CopyTraderConfig) (state : CursorState) (cash : ℚ)
    (acts : List TradeActivity) (nowSec nowMs : ℚ) (exec : ℕ → OrderParams → ExecResult)
    (hbal : ¬cash < 1) :
    (runCopyTrade cfg state cash acts nowSec nowMs exec).2.map Prod.fst = acts ∧
    (runCopyTrade cfg state cash acts nowSec nowMs exec).1.copied =
      ((subsOf (runCopyTrade cfg state cash acts nowSec nowMs exec).2).filter
        fun s => isSuccess s.result).length ∧
    (runCopyTrade cfg state cash acts nowSec nowMs exec).1.failed =
      ((subsOf (runCopyTrade cfg state cash acts nowSec nowMs exec).2).filter
        fun s => !isSuccess s.result).length ∧
    (runCopyTrade cfg state cash acts nowSec nowMs exec).1.error =
      errAgg (failMsgs (runCopyTrade cfg state cash acts nowSec nowMs exec).2) ∧
    (∀ k, k ∈ (runCopyTrade cfg state cash acts nowSec nowMs exec).1.copiedKeys ↔
      k ∈ state.copiedKeys ∨
      ∃ s ∈ subsOf (runCopyTrade cfg state cash acts nowSec nowMs exec).2,
        isSuccess s.result = true ∧ s.key = k) ∧
    (∀ s ∈ subsOf (runCopyTrade cfg state cash acts nowSec nowMs exec).2,
      isSuccess s.result = false →
      (∀ s2 ∈ subsOf (runCopyTrade cfg state cash acts nowSec nowMs exec).2,
        s2.key = s.key → isSuccess s2.result = false) →
      s.key ∉ (runCopyTrade cfg state cash acts nowSec nowMs exec).1.copiedKeys) ∧
    (runCopyTrade cfg state cash acts nowSec nowMs exec).1.lastTimestamp =
      some ((successTs (runCopyTrade cfg state cash acts nowSec nowMs exec).2).foldl max
        state.lastTimestamp) := by
  rw [runCopyTrade_ok hbal]
  dsimp only [mkResult]
  have hinittr : (initLoopState state).trace = ([] : List (TradeActivity × EventOutcome)) := rfl
  have hinitsubs : subsOf (initLoopState state).trace = [] := rfl
  have hcov := trace_activities_foldl (runCtxOf cfg state cash nowSec nowMs exec) acts
    (initLoopState state)
  rw [hinittr] at hcov
  obtain ⟨hcp, hfl, herr⟩ := counts_foldl (runCtxOf cfg state cash nowSec nowMs exec) acts
    (initLoopState state) rfl rfl rfl
  have hkeys := keyprov_foldl (runCtxOf cfg state cash nowSec nowMs exec) acts
    state.copiedKeys (initLoopState state)
    (fun k => by rw [hinitsubs]; simpa using mem_seedKeys)
  have htsadv := tsadv_foldl (runCtxOf cfg state cash nowSec nowMs exec) acts
    state.lastTimestamp (initLoopState state) rfl
  refine ⟨by simpa using hcov, hcp, hfl, herr, hkeys, ?_, by rw [htsadv]⟩
  intro s hs hfail hall hmem
  rcases (hkeys s.key).mp hmem with hk | ⟨s2, hs2, hsu2, hk2⟩
  · obtain ⟨-, -, d3, -⟩ := dedup_foldl (runCtxOf cfg state cash nowSec nowMs exec) acts
      state.copiedKeys (initLoopState state)
      (fun k hk => mem_seedKeys.mpr hk)
      (fun s' hs' => absurd (hinitsubs ▸ hs') (List.not_mem_nil s'))
      (fun s' hs' => absurd (hinitsubs ▸ hs') (List.not_mem_nil s'))
      (hinitsubs ▸ List.Pairwise.nil)
    exact d3 s hs hk
  · rw [hall s2 hs2 hk2] at hsu2
    cases hsu2

/-- Witness for C3 at a concrete pass: the first submission is rejected,
the second fills; the pass reports one failure with its reason, one copy,
records only the successful key, and advances the timestamp only to the
successful event. -/
theorem per_event_failure_isolated_witness :
    (runCopyTrade sampleConfig ⟨0, []⟩ 100 [sampleBuy, sampleSell] 1000 5
      execFailFirst).1.failed = 1 ∧
    (runCopyTrade sampleConfig ⟨0, []⟩ 100 [sampleBuy, sampleSell] 1000 5
      execFailFirst).1.error = some "no fill" ∧
    (runCopyTrade sampleConfig ⟨0, []⟩ 100 [sampleBuy, sampleSell] 1000 5
      execFailFirst).1.lastTimestamp = some 900 := by
  have h := per_event_failure_isolated sampleConfig ⟨0, []⟩ 100 [sampleBuy, sampleSell] 1000 5
    execFailFirst (by decide)
  refine ⟨?_, ?_, ?_⟩
  · rw [h.2.2.1]
    decide
  · rw [h.2.2.2.1]
    decide
  · rw [h.2.2.2.2.2.2]
    decide

/-- C4: with a positive floor, the bet size equals
`max(amount, minUsd)` when `amount = equity * (minPct/100 + price *
(maxPct/100 - minPct/100))` clears the floor and zero otherwise; under the
validated domain (nonnegative ordered percent bounds, nonnegative price)
nonpositive equity yields zero, and the three concrete values hold. -/
theorem computeBetSize_spec (equity price minPct maxPct minUsd : ℚ) (hmin : 0 < minUsd) :
    (computeBetSize equity price minPct maxPct minUsd =
      if minUsd ≤ equity * (minPct / 100 + price * (maxPct / 100 - minPct / 100))
      then max (equity * (minPct / 100 + price * (maxPct / 100 - minPct / 100))) minUsd
      else 0) ∧
    (0 ≤ minPct → minPct ≤ maxPct → 0 ≤ price → equity ≤ 0 →
      computeBetSize equity price minPct maxPct minUsd = 0) ∧
    computeBetSize 1000 0 5 10 1 = 50 ∧
    computeBetSize 1000 1 5 10 1 = 100 ∧
    computeBetSize 10 (1/2) 5 10 5 = 0 := by
  refine ⟨rfl, ?_, by decide, by decide, by decide⟩
  intro hp0 hpm hpr he
  have hfrac : (0 : ℚ) ≤ minPct / 100 + price * (maxPct / 100 - minPct / 100) := by
    have h1 : (0 : ℚ) ≤ minPct / 100 := by positivity
    have h2 : (0 : ℚ) ≤ maxPct / 100 - minPct / 100 := by
      have : minPct / 100 ≤ maxPct / 100 := by linarith
      linarith
    have h3 : (0 : ℚ) ≤ price * (maxPct / 100 - minPct / 100) := mul_nonneg hpr h2
    linarith
  have hamt : equity * (minPct / 100 + price * (maxPct / 100 - minPct / 100)) ≤ 0 := by
    nlinarith [mul_nonneg (neg_nonneg.mpr he) hfrac]
  have hnot : ¬minUsd ≤ equity * (minPct / 100 + price * (maxPct / 100 - minPct / 100)) :=
    not_le.mpr (lt_of_le_of_lt hamt hmin)
  unfold computeBetSize
  exact if_neg hnot

/-- Witness for C4 at concrete inputs: the floor hypothesis holds at
`minUsd = 1` and the first sample value evaluates to 50. -/
theorem computeBetSize_spec_witness :
    computeBetSize 1000 0 5 10 1 = 50 :=
  (computeBetSize_spec 1000 0 5 10 1 (by norm_num)).2.2.1

/-- C5: when the fetched equity is below the 1 USD safety floor, the pass
returns the low-balance result (zero counters, error "Low balance", no
proposed timestamp, empty key list) for every activity page, the handler's
persistence merge leaves the stored cursor unchanged, and no order is
submitted. -/
theorem low_balance_aborts (cfg : CopyTraderConfig) (state : CursorState) (cash : ℚ)
    (acts : List TradeActivity) (nowSec nowMs : ℚ) (exec : ℕ → OrderParams → ExecResult)
    (h : cash < 1) :
    runCopyTrade cfg state cash acts nowSec nowMs exec =
      ({ copied := 0, failed := 0, error := some "Low balance",
         lastTimestamp := none, copiedKeys := [], copiedTrades := [] }, []) ∧
    persistedCursor state (runCopyTrade cfg state cash acts nowSec nowMs exec).1 = state ∧
    subsOf (runCopyTrade cfg state cash acts nowSec nowMs exec).2 = [] := by
  have hl := @runCopyTrade_low cfg state cash acts nowSec nowMs exec h
  refine ⟨hl, ?_, by rw [hl]; rfl⟩
  rw [hl]
  rfl

/-- Witness for C5: a pass with a 0.5 USD balance over a populated cursor
leaves the persisted cursor exactly as it was. -/
theorem low_balance_aborts_witness :
    persistedCursor ⟨42, ["k1"]⟩
      (runCopyTrade sampleConfig ⟨42, ["k1"]⟩ (1/2) [sampleBuy] 1000 5
        execAllSuccess).1 = ⟨42, ["k1"]⟩ :=
  (low_balance_aborts sampleConfig ⟨42, ["k1"]⟩ (1/2) [sampleBuy] 1000 5 execAllSuccess
    (by decide)).2.1

/-- C6: first-run status holds iff the cursor has `lastTimestamp = 0` and no
copied keys; on a first run a fetched TRADE event older than the
five-minute window (`timestamp < nowSec - 300`) is never submitted, and any
key in the returned set stems from the input cursor or a successful
submission; an event inside the window is never window-skipped; on a
non-first run no event is window-skipped at all; the manual reset state is
the zero cursor and satisfies the first-run predicate. -/
theorem first_run_window (cfg : CopyTraderConfig) (state : CursorState) (cash : ℚ)
    (acts : List TradeActivity) (nowSec nowMs : ℚ) (exec : ℕ → OrderParams → ExecResult) :
    (isFirstRun state = true ↔ state.lastTimestamp = 0 ∧ state.copiedKeys = []) ∧
    (isFirstRun state = true →
      ∀ e ∈ (runCopyTrade cfg state cash acts nowSec nowMs exec).2,
        e.1.type = "TRADE" → e.1.timestamp < nowSec - 300 →
        ∀ s, e.2 ≠ EventOutcome.submitted s) ∧
    (∀ k, k ∈ (runCopyTrade cfg state cash acts nowSec nowMs exec).1.copiedKeys →
      k ∈ state.copiedKeys ∨
      ∃ s ∈ subsOf (runCopyTrade cfg state cash acts nowSec nowMs exec).2,
        isSuccess s.result = true ∧ s.key = k) ∧
    (isFirstRun state = true →
      ∀ e ∈ (runCopyTrade cfg state cash acts nowSec nowMs exec).2,
        nowSec - 300 ≤ e.1.timestamp → e.2 ≠ EventOutcome.windowSkip) ∧
    (isFirstRun state = false →
      ∀ e ∈ (runCopyTrade cfg state cash acts nowSec nowMs exec).2,
        e.2 ≠ EventOutcome.windowSkip) ∧
    resetState.lastTimestamp = 0 ∧ resetState.copiedKeys = [] ∧
    isFirstRun resetState = true := by
  have hiff : isFirstRun state = true ↔ state.lastTimestamp = 0 ∧ state.copiedKeys = [] := by
    unfold isFirstRun
    rw [Bool.and_eq_true, decide_eq_true_iff, decide_eq_true_iff, seedKeys_eq_nil]
  by_cases h : cash < 1
  · rw [runCopyTrade_low h]
    exact ⟨hiff,
      fun _ e he => absurd he (List.not_mem_nil e),
      fun k hk => absurd hk (List.not_mem_nil k),
      fun _ e he => absurd he (List.not_mem_nil e),
      fun _ e he => absurd he (List.not_mem_nil e),
      rfl, rfl, rfl⟩
  · rw [runCopyTrade_ok h]
    dsimp only [mkResult]
    have hinitsubs : subsOf (initLoopState state).trace = [] := rfl
    refine ⟨hiff, ?_, ?_, ?_, ?_, rfl, rfl, rfl⟩
    · intro hfr e he
      exact window_skip_foldl (runCtxOf cfg state cash nowSec nowMs exec) acts hfr
        (initLoopState state) (fun e' he' => absurd he' (List.not_mem_nil e')) e he
    · intro k hk
      exact (keyprov_foldl (runCtxOf cfg state cash nowSec nowMs exec) acts state.copiedKeys
        (initLoopState state)
        (fun k' => by rw [hinitsubs]; simpa using mem_seedKeys) k).mp hk
    · intro hfr e he hge
      exact no_windowSkip_foldl (runCtxOf cfg state cash nowSec nowMs exec) acts
        (initLoopState state) (fun e' he' => absurd he' (List.not_mem_nil e')) e he (Or.inl hge)
    · intro hfr e he
      exact no_windowSkip_foldl (runCtxOf cfg state cash nowSec nowMs exec) acts
        (initLoopState state) (fun e' he' => absurd he' (List.not_mem_nil e')) e he (Or.inr hfr)

/-- Witness for C6 at a concrete first run clocked at `nowSec = 1000`: the
zero cursor is a first run, and the stale event at feed time 100 — which
the pass window-skips — is not submitted. -/
theorem first_run_window_witness :
    isFirstRun ⟨0, []⟩ = true ∧
    ∀ s, ((sampleOld, EventOutcome.windowSkip) : TradeActivity × EventOutcome).2 ≠
      EventOutcome.submitted s := by
  have h := first_run_window sampleConfig ⟨0, []⟩ 100 [sampleOld, sampleBuy] 1000 5 execAllSuccess
  exact ⟨h.1.mpr ⟨rfl, rfl⟩,
    h.2.1 (h.1.mpr ⟨rfl, rfl⟩) (sampleOld, EventOutcome.windowSkip)
      (by decide) (by decide) (by decide)⟩

/-- C7: when the balance check passes and every fetched entry is at or below
the cursor's `lastTimestamp`, the pass copies nothing, fails nothing,
reports no error, submits no order, and returns the cursor unchanged (the
key list exactly, when duplicate-free; as a set always). -/
theorem no_new_events_identity (cfg : CopyTraderConfig) (state : CursorState) (cash : ℚ)
    (acts : List TradeActivity) (nowSec nowMs : ℚ) (exec : ℕ → OrderParams → ExecResult)
    (hbal : ¬cash < 1)
    (hstale : ∀ a ∈ acts, a.timestamp ≤ state.lastTimestamp) :
    (runCopyTrade cfg state cash acts nowSec nowMs exec).1.copied = 0 ∧
    (runCopyTrade cfg state cash acts nowSec nowMs exec).1.failed = 0 ∧
    (runCopyTrade cfg state cash acts nowSec nowMs exec).1.error = none ∧
    (runCopyTrade cfg state cash acts nowSec nowMs exec).1.lastTimestamp =
      some state.lastTimestamp ∧
    (∀ k, k ∈ (runCopyTrade cfg state cash acts nowSec nowMs exec).1.copiedKeys ↔
      k ∈ state.copiedKeys) ∧
    (runCopyTrade cfg state cash acts nowSec nowMs exec).1.copiedTrades = [] ∧
    subsOf (runCopyTrade cfg state cash acts nowSec nowMs exec).2 = [] ∧
    (state.copiedKeys.Nodup →
      (runCopyTrade cfg state cash acts nowSec nowMs exec).1.copiedKeys =
        state.copiedKeys) := by
  rw [runCopyTrade_ok hbal]
  dsimp only [mkResult]
  obtain ⟨g1, g2, g3, g4, g5, g6, g7⟩ := frozen_foldl
    (runCtxOf cfg state cash nowSec nowMs exec) acts state.lastTimestamp hstale
    (initLoopState state) rfl
  refine ⟨g3, g4, g5, by rw [g2]; rfl, ?_, g6, g7, ?_⟩
  · intro k
    rw [g1]
    exact mem_seedKeys
  · intro hnd
    rw [g1]
    exact seedKeys_of_nodup hnd

/-- Witness for C7: a pass over one stale event against a populated
duplicate-free cursor returns the cursor exactly. -/
theorem no_new_events_identity_witness :
    (runCopyTrade sampleConfig ⟨1000, ["k1"]⟩ 100 [sampleSell] 2000 5
      execAllSuccess).1.lastTimestamp = some 1000 ∧
    (runCopyTrade sampleConfig ⟨1000, ["k1"]⟩ 100 [sampleSell] 2000 5
      execAllSuccess).1.copiedKeys = ["k1"] := by
  have h := no_new_events_identity sampleConfig ⟨1000, ["k1"]⟩ 100 [sampleSell] 2000 5
    execAllSuccess (by decide) (by decide)
  exact ⟨h.2.2.2.1, h.2.2.2.2.2.2.2 (by decide)⟩

/-- C8: every order submitted by a pass is built from its event as the code
does: direction `BUY` exactly when the uppercased event direction is the
string BUY and `SELL` otherwise, always fill-or-kill, amount equal to the
computed bet size, the observed price passed as the limit exactly for a
sell and omitted for a buy, and the token identifier taken from the event's
asset. -/
theorem order_construction (cfg : CopyTraderConfig) (state : CursorState) (cash : ℚ)
    (acts : List TradeActivity) (nowSec nowMs : ℚ) (exec : ℕ → OrderParams → ExecResult) :
    ∀ e ∈ (runCopyTrade cfg state cash acts nowSec nowMs exec).2,
    ∀ s, e.2 = EventOutcome.submitted s →
      s.params.side = (if sideStrOf e.1 = "BUY" then Side.BUY else Side.SELL) ∧
      s.params.orderType = OrderType.FOK ∧
      s.params.amount =
        computeBetSize cash e.1.price cfg.minPercent cfg.maxPercent cfg.minBetUsd ∧
      s.params.price = (if sideOf e.1 = Side.SELL then some e.1.price else none) ∧
      s.params.tokenID = e.1.asset.getD "" := by
  by_cases h : cash < 1
  · rw [runCopyTrade_low h]
    exact fun e he => absurd he (List.not_mem_nil e)
  · rw [runCopyTrade_ok h]
    dsimp only
    intro e he s hs
    obtain ⟨-, -, hp⟩ := subshape_foldl (runCtxOf cfg state cash nowSec nowMs exec) acts
      (initLoopState state) (fun e' he' => absurd he' (List.not_mem_nil e')) e he s hs
    rw [hp]
    exact ⟨rfl, rfl, rfl, rfl, rfl⟩

/-- Witness for C8 at a concrete pass: the copied sell order carries the
observed price 3/4 as its limit and is fill-or-kill. -/
theorem order_construction_witness :
    (paramsOf sampleConfig 100 sampleSell).price = some (3/4) ∧
    (paramsOf sampleConfig 100 sampleSell).orderType = OrderType.FOK := by
  have h := order_construction sampleConfig ⟨0, []⟩ 100 [sampleSell] 1000 5 execAllSuccess
    (sampleSell, EventOutcome.submitted
      ⟨keyOf sampleSell, 900, paramsOf sampleConfig 100 sampleSell, ExecResult.success⟩)
    (by decide)
    ⟨keyOf sampleSell, 900, paramsOf sampleConfig 100 sampleSell, ExecResult.success⟩ rfl
  exact ⟨by rw [h.2.2.2.1]; decide, h.2.1⟩

/-- C9: the balance source raises on every non-OK transport response and on
every zip parse fault — never returning zero for such failures — and on a
loaded archive it always returns a value, with zero arising only from the
normalization defaults: missing `equity.csv`, fewer than two CSV lines,
missing `cashBalance` column, or a cell whose parse (defaulted) is zero. -/
theorem getCashBalance_spec :
    (∀ status, getCashBalance (SnapshotFetch.transportErr status) =
      Except.error ("Snapshot failed: " ++ toString status)) ∧
    (∀ m, getCashBalance (SnapshotFetch.zipErr m) = Except.error m) ∧
    (∀ status m, getCashBalance (SnapshotFetch.transportErr status) ≠ Except.ok 0 ∧
      getCashBalance (SnapshotFetch.zipErr m) ≠ Except.ok 0) ∧
    (∀ files, files.lookup "equity.csv" = none →
      getCashBalance (SnapshotFetch.archive files) = Except.ok 0) ∧
    (∀ files text, files.lookup "equity.csv" = some text →
      (text.trim.splitOn "\n").length < 2 →
      getCashBalance (SnapshotFetch.archive files) = Except.ok 0) ∧
    (∀ files text l0 l1 rest, files.lookup "equity.csv" = some text →
      text.trim.splitOn "\n" = l0 :: l1 :: rest →
      (l0.splitOn ",").findIdx? (fun h => h = "cashBalance") = none →
      getCashBalance (SnapshotFetch.archive files) = Except.ok 0) ∧
    (∀ files text l0 l1 rest i, files.lookup "equity.csv" = some text →
      text.trim.splitOn "\n" = l0 :: l1 :: rest →
      (l0.splitOn ",").findIdx? (fun h => h = "cashBalance") = some i →
      getCashBalance (SnapshotFetch.archive files) =
        Except.ok ((jsParseFloat ((l1.splitOn ",").getD i "0")).getD 0)) := by
  refine ⟨fun status => rfl, fun m => rfl, fun status m => ⟨by simp [getCashBalance],
    by simp [getCashBalance]⟩, ?_, ?_, ?_, ?_⟩
  · intro files hnone
    simp [getCashBalance, hnone]
  · intro files text hsome hlen
    rcases hsplit : text.trim.splitOn "\n" with _ | ⟨a, _ | ⟨b, t⟩⟩
    · simp [getCashBalance, hsome, hsplit]
    · simp [getCashBalance, hsome, hsplit]
    · rw [hsplit] at hlen
      simp at hlen
      omega
  · intro files text l0 l1 rest hsome hsplit hidx
    simp [getCashBalance, hsome, hsplit, hidx]
  · intro files text l0 l1 rest i hsome hsplit hidx
    simp [getCashBalance, hsome, hsplit, hidx]

/-- Witness for C9 at concrete inputs: a 500 response raises with the
status in the message, and an archive without an `equity.csv` entry
normalizes to zero. -/
theorem getCashBalance_spec_witness :
    getCashBalance (SnapshotFetch.transportErr 500) = Except.error "Snapshot failed: 500" ∧
    getCashBalance (SnapshotFetch.archive [("positions.csv", "x")]) = Except.ok 0 :=
  ⟨getCashBalance_spec.1 500,
   getCashBalance_spec.2.2.2.1 [("positions.csv", "x")] (by decide)⟩

/-- C10: both revisions of the store's `getState` normalize a missing record
to the zero cursor and default each missing field (`lastTimestamp` to 0,
`copiedKeys` to the empty list), so a fresh deployment satisfies exactly
the engine's first-run predicate. -/
theorem getState_defaults :
    getState_v1 none = ⟨0, []⟩ ∧
    (getState_v2 none).lastTimestamp = 0 ∧ (getState_v2 none).copiedKeys = [] ∧
    (∀ t : StoredState, t.lastTimestamp = none →
      (getState_v1 (some t)).lastTimestamp = 0 ∧ (getState_v2 (some t)).lastTimestamp = 0) ∧
    (∀ t : StoredState, t.copiedKeys = none →
      (getState_v1 (some t)).copiedKeys = [] ∧ (getState_v2 (some t)).copiedKeys = []) ∧
    isFirstRun (getState_v1 none) = true ∧
    isFirstRun ⟨(getState_v2 none).lastTimestamp, (getState_v2 none).copiedKeys⟩ = true := by
  refine ⟨rfl, rfl, rfl, ?_, ?_, rfl, rfl⟩
  · intro t ht
    exact ⟨by simp [getState_v1, ht], by simp [getState_v2, ht]⟩
  · intro t ht
    exact ⟨by simp [getState_v1, ht], by simp [getState_v2, ht]⟩

/-- Witness for C10 at a concrete stored record with both cursor fields
absent: both revisions normalize it to the zero cursor. -/
theorem getState_defaults_witness :
    (getState_v1 (some ⟨none, none, none, none, none⟩)).lastTimestamp = 0 ∧
    (getState_v1 (some ⟨none, none, none, none, none⟩)).copiedKeys = [] := by
  exact ⟨(getState_defaults.2.2.2.1 ⟨none, none, none, none, none⟩ rfl).1,
    (getState_defaults.2.2.2.2.1 ⟨none, none, none, none, none⟩ rfl).1⟩
